import Mathlib

/-!
Verification development for the target-resolution and rollout-gating core of
the fleet repository (`pkg/controllers/git` target manager, package `target`).

The Go code is shallowly embedded:

* Machine integers (`int`, `int32`) are modelled as unbounded `Int`; overflow
  is immaterial to the properties considered here.
* `float64` values produced by `strconv.ParseFloat` are modelled as exact
  rationals (`ℚ`).  For the numerals appearing in rollout budgets and the
  population sizes of real fleets the float computation is exact, so the
  rational model coincides with the float one on all inputs of interest.
* Go's `int(f)` conversion truncates toward zero and Go's integer division
  truncates toward zero; both are modelled with `Int.tdiv`.
* Fallible calls return `Except Err α`; the external collaborators of the
  `Manager` (caches, the bundle matcher, option merging, deployment-identity
  computation, the content store) are injected as function-valued fields, so
  every theorem about `Targets` quantifies over all possible collaborator
  behaviour.
* `strconv.Atoi` and `strconv.ParseFloat` are modelled on the decimal number
  syntax (optional sign, digits, fraction, exponent); the exotic float forms
  (hex floats, `Inf`, `NaN`, digit-separating underscores) are omitted, which
  only shrinks the set of strings that parse.
* Go maps built by insertion (`byNamespace`) are modelled by a left fold in
  which a later insertion for the same key wins.
-/

namespace Fleet

/-- Error values: Go `error` is modelled as a message string. -/
abbrev Err := String

/-- A Kubernetes label set, `map[string]string` in Go.  Matching is abstract
(the selector predicate receives the whole set), so an association list
representation suffices. -/
abbrev Labels := List (String × String)

/-! ## Go standard-library helpers used by `Limit` -/

/-- Value of a digit run, most significant first (`strconv` accumulation). -/
def digitsToNat (ds : List Char) : Nat :=
  ds.foldl (fun acc c => acc * 10 + (c.toNat - Char.toNat '0')) 0

/-- Parse a nonempty run of decimal digits, as `strconv` does after the sign
has been stripped; any non-digit character is a syntax error. -/
def atoiDigits (ds : List Char) : Option Nat :=
  if ds.isEmpty then none
  else if ds.all Char.isDigit then some (digitsToNat ds) else none

/-- Strip one leading sign character, returning whether the value is negated
and the remaining characters. -/
def stripSign (cs : List Char) : Bool × List Char :=
  match cs with
  | [] => (false, [])
  | c :: rest =>
    if c = '+' then (false, rest)
    else if c = '-' then (true, rest)
    else (false, c :: rest)

/-- Model of `strconv.Atoi`: optional sign followed by at least one digit.
Overflow of the 64-bit `int` is not modelled (see module comment). -/
def goAtoi (s : String) : Option Int :=
  let sd := stripSign s.data
  match atoiDigits sd.2 with
  | none => none
  | some n => some (if sd.1 then -(n : Int) else (n : Int))

/-- Split a character list at the first exponent marker `e`/`E`. -/
def splitAtExp (cs : List Char) : List Char × Option (List Char) :=
  match cs.span (fun c => !(c = 'e' || c = 'E')) with
  | (mant, []) => (mant, none)
  | (mant, _ :: rest) => (mant, some rest)

/-- Parse the mantissa of a decimal float: `digits[.digits]` or `.digits`,
with at least one digit present overall. -/
def parseMantissa (cs : List Char) : Option ℚ :=
  match cs.span Char.isDigit with
  | (ip, []) => if ip.isEmpty then none else some (digitsToNat ip : ℚ)
  | (ip, '.' :: frac) =>
    if frac.all Char.isDigit && !(ip.isEmpty && frac.isEmpty) then
      some ((digitsToNat ip : ℚ) + (digitsToNat frac : ℚ) / (10 : ℚ) ^ frac.length)
    else none
  | _ => none

/-- Apply a base-ten exponent to a rational mantissa. -/
def applyExp (m : ℚ) (e : Int) : ℚ :=
  if 0 ≤ e then m * (10 : ℚ) ^ e.toNat else m / (10 : ℚ) ^ (-e).toNat

/-- Model of `strconv.ParseFloat` on the decimal syntax
`[sign] digits [. digits] [(e|E) [sign] digits]`, returning the exact
rational value (see module comment for the modelling caveats). -/
def goParseFloat (s : String) : Option ℚ :=
  let sd := stripSign s.data
  if sd.2.isEmpty then none
  else
    match splitAtExp sd.2 with
    | (mant, none) =>
      (parseMantissa mant).map (fun m => if sd.1 then -m else m)
    | (mant, some ecs) =>
      match parseMantissa mant, atoiExp ecs with
      | some m, some e => some (if sd.1 then -(applyExp m e) else applyExp m e)
      | _, _ => none
where
  /-- Exponent part: optional sign plus at least one digit. -/
  atoiExp (cs : List Char) : Option Int :=
    let sd := stripSign cs
    match atoiDigits sd.2 with
    | none => none
    | some n => some (if sd.1 then -(n : Int) else (n : Int))

/-- Go's `int(f)` conversion for a value already known to be rational:
truncation toward zero. -/
def ratTruncToInt (q : ℚ) : Int := q.num.tdiv (q.den : Int)

/-- `strings.HasSuffix(s, "%")`: the last character is `%`. -/
def goHasPercentSuffix (s : String) : Bool := s.data.getLast? == some '%'

/-- `strings.TrimSuffix(s, "%")` under the knowledge that the suffix is
present: drop the last character. -/
def goTrimPercentSuffix (s : String) : String := String.mk s.data.dropLast

/-! ## The `intstr.IntOrString` budget type and `Limit` -/

/-- `intstr.IntOrString`: a value that is either an integer or a string. -/
inductive IntOrString where
  | i (v : Int)
  | s (v : String)

/-- `IntOrString.IntValue()`: the integer itself, or `strconv.Atoi` of the
string with parse errors ignored (yielding 0). -/
def IntOrString.intValue : IntOrString → Int
  | .i v => v
  | .s v => (goAtoi v).getD 0

/-- `defLimit = intstr.FromString("10%")`. -/
def defLimit : IntOrString := .s "10%"

/-- `defAutoPartitionSize = intstr.FromString("25%")`. -/
def defAutoPartitionSize : IntOrString := .s "25%"

/-- `defMaxUnavailablePartitions = intstr.FromInt(0)`. -/
def defMaxUnavailablePartitions : IntOrString := .i 0

/-- The body of `Limit` once the budget has been selected (the Go code after
the `maxUnavailable` binding is fixed and `count != 0`). -/
def limitBudget (count : Int) (maxUnavailable : IntOrString) : Except Err Int :=
  match maxUnavailable with
  | .i v => Except.ok v
  | .s sv =>
    let i := (goAtoi sv).getD 0
    if 0 < i then Except.ok i
    else if goHasPercentSuffix sv = false then
      Except.error ("invalid maxUnavailable, must be int or percentage (ending with %): " ++ sv)
    else
      match goParseFloat (goTrimPercentSuffix sv) with
      | none => Except.error ("failed to parse " ++ sv)
      | some percent =>
        if percent ≤ 0 then Except.ok 1
        else
          let r := (ratTruncToInt ((count : ℚ) * percent)).tdiv 100
          if r ≤ 0 then Except.ok 1 else Except.ok r

/-- The budget-selection loop at the head of `Limit`: the first non-nil
budget of the variadic argument, with `defLimit` as fallback. -/
def selectedBudget (vals : List (Option IntOrString)) : IntOrString :=
  (vals.findSome? (fun v => v)).getD defLimit

/-- `Limit(count, val ...*intstr.IntOrString)`: the variadic argument is a
list of possibly-nil budgets; the first non-nil one is selected, with
`defLimit` as fallback. -/
def Limit (count : Int) (vals : List (Option IntOrString)) : Except Err Int :=
  if count = 0 then Except.ok 1
  else limitBudget count (selectedBudget vals)

/-! ## Data model -/

structure ClusterSpec where
  Paused : Bool

structure ClusterStatus where
  Namespace : String

structure Cluster where
  Namespace : String
  Name : String
  Labels : Labels
  Spec : ClusterSpec
  Status : ClusterStatus

/-- `metav1.LabelSelector` is external to this repository; it is modelled by
its observable behaviour through `metav1.LabelSelectorAsSelector`: either a
conversion error or a predicate on label sets. -/
structure LabelSelector where
  asSelector : Except Err (Labels → Bool)

structure ClusterGroupSpec where
  Selector : Option LabelSelector

structure ClusterGroup where
  Namespace : String
  Name : String
  Labels : Labels
  Spec : ClusterGroupSpec

structure BundleDeploymentSpec where
  StagedDeploymentID : String
  DeploymentID : String

structure BundleDeploymentStatus where
  AppliedDeploymentID : String
  Ready : Bool

structure BundleDeployment where
  Namespace : String
  Name : String
  Spec : BundleDeploymentSpec
  Status : BundleDeploymentStatus

structure RolloutStrategy where
  MaxUnavailable : Option IntOrString
  MaxUnavailablePartitions : Option IntOrString
  AutoPartitionSize : Option IntOrString

/-- A bundle target definition; its match rule and overrides are only ever
consumed by external collaborators, so only the name is carried. -/
structure BundleTarget where
  Name : String

structure BundleSpec where
  Paused : Bool
  RolloutStrategy : Option RolloutStrategy
  Targets : List BundleTarget

/-- `fleet.Bundle`, the API object handed to `Targets`. -/
structure FleetBundle where
  Namespace : String
  Name : String
  Spec : BundleSpec

/-- `fleet.BundleDeploymentOptions` is opaque to the target manager (it is
produced and consumed by external collaborators). -/
structure BundleDeploymentOptions where
  Raw : String

/-- `manifest.Manifest` is opaque to the target manager. -/
structure Manifest where
  Content : String

/-- The value returned by `bundle.Match`: the matched target definition plus
the `Manifest()` accessor (which may fail). -/
structure Match where
  Target : BundleTarget
  Manifest : Except Err Manifest

/-- `bundle.Bundle` as consumed by `Targets`: its `Match` method, taking the
cluster-group name→labels map and the cluster labels. -/
structure Bundle where
  Match : List (String × Labels) → Labels → Option Match

/-- `fleet.PartitionStatus` restricted to the fields the gate reads/writes. -/
structure PartitionStatus where
  MaxUnavailable : Int
  Unavailable : Int

structure Target where
  Deployment : Option BundleDeployment
  ClusterGroups : List ClusterGroup
  Cluster : Cluster
  Bundle : FleetBundle
  Target : BundleTarget
  Options : BundleDeploymentOptions
  DeploymentID : String

/-! ## The Manager and its collaborator-backed operations -/

/-- The target `Manager`.  Its caches and the package-level external
functions it calls (`bundle.New`, `options.Calculate`,
`options.DeploymentID`, `manifest.Store.Store`) are injected as fields, so
theorems quantify over every collaborator behaviour. -/
structure Manager where
  clusters : String → Except Err (List Cluster)
  clusterGroups : String → Except Err (List ClusterGroup)
  bundleDeploymentCache : List (String × String) → Except Err (List BundleDeployment)
  bundleCache : String → Except Err (List FleetBundle)
  bundleNew : FleetBundle → Except Err Bundle
  optionsCalculate : BundleSpec → BundleTarget → Except Err BundleDeploymentOptions
  optionsDeploymentID : Manifest → BundleDeploymentOptions → Except Err String
  contentStoreStore : Manifest → Except Err String

/-- `ClusterGroupsToLabelMap`. -/
def ClusterGroupsToLabelMap (cgs : List ClusterGroup) : List (String × Labels) :=
  cgs.map (fun cg => (cg.Name, cg.Labels))

/-- The loop body of `ClusterGroupsForCluster`: skip groups without a
selector, skip (after logging) groups whose selector fails to convert, keep
groups whose selector matches the cluster labels. -/
def cgLoop (clusterLabels : Labels) : List ClusterGroup → List ClusterGroup
  | [] => []
  | cg :: rest =>
    match cg.Spec.Selector with
    | none => cgLoop clusterLabels rest
    | some s =>
      match s.asSelector with
      | .error _ => cgLoop clusterLabels rest
      | .ok sel =>
        if sel clusterLabels then cg :: cgLoop clusterLabels rest
        else cgLoop clusterLabels rest

/-- `(*Manager).ClusterGroupsForCluster`. -/
def Manager.ClusterGroupsForCluster (m : Manager) (cluster : Cluster) :
    Except Err (List ClusterGroup) := do
  let cgs ← m.clusterGroups cluster.Namespace
  return cgLoop cluster.Labels cgs

/-- `DeploymentLabels`. -/
def DeploymentLabels (app : FleetBundle) : List (String × String) :=
  [("fleet.cattle.io/bundle-name", app.Name),
   ("fleet.cattle.io/bundle-namespace", app.Namespace)]

/-- The `byNamespace` map of `foldInDeployments`: indexing by namespace with
later entries overwriting earlier ones, then lookup. -/
def byNamespaceLookup (bds : List BundleDeployment) (ns : String) :
    Option BundleDeployment :=
  bds.foldl (fun acc bd => if bd.Namespace = ns then some bd else acc) none

/-- `(*Manager).foldInDeployments`: list the bundle's deployments, index them
by namespace, attach to each target the deployment recorded in its cluster's
status namespace.  The in-place mutation of the Go code is modelled by
returning the updated target list. -/
def Manager.foldInDeployments (m : Manager) (app : FleetBundle)
    (targets : List Target) : Except Err (List Target) := do
  let bundleDeployments ← m.bundleDeploymentCache (DeploymentLabels app)
  return targets.map (fun t =>
    { t with Deployment := byNamespaceLookup bundleDeployments t.Cluster.Status.Namespace })

/-- The per-cluster loop of `Targets`: resolve cluster groups, attempt a
match (skipping non-matching clusters), fetch the manifest, compute options
and the deployment identity, store the content, and emit one `Target`
(whose `Deployment` field is still unset). -/
def Manager.TargetsLoop (m : Manager) (fleetBundle : FleetBundle) (bnd : Bundle) :
    List Cluster → Except Err (List Target)
  | [] => Except.ok []
  | cluster :: rest => do
    let clusterGroups ← m.ClusterGroupsForCluster cluster
    match bnd.Match (ClusterGroupsToLabelMap clusterGroups) cluster.Labels with
    | none => m.TargetsLoop fleetBundle bnd rest
    | some mtch => do
      let manifest ← mtch.Manifest
      let opts ← m.optionsCalculate fleetBundle.Spec mtch.Target
      let deploymentID ← m.optionsDeploymentID manifest opts
      let _ ← m.contentStoreStore manifest
      let restTargets ← m.TargetsLoop fleetBundle bnd rest
      return { Deployment := none
               ClusterGroups := clusterGroups
               Cluster := cluster
               Target := mtch.Target
               Bundle := fleetBundle
               Options := opts
               DeploymentID := deploymentID } :: restTargets

/-- Lexicographic string comparison on character scalar values, modelling
Go's byte-wise lexicographic string order (identical at the character level
for the names compared here).  `charListLe as bs` is the reflexive order
used to express the postcondition of `sort.Slice` with the strict comparison
`name_i < name_j`. -/
def charListLe : List Char → List Char → Bool
  | [], _ => true
  | _ :: _, [] => false
  | a :: as, b :: bs =>
    if a.toNat < b.toNat then true
    else if b.toNat < a.toNat then false
    else charListLe as bs

lemma charListLe_total : ∀ as bs : List Char,
    charListLe as bs = true ∨ charListLe bs as = true := by
  intro as
  induction as with
  | nil => intro bs; left; rfl
  | cons a as ih =>
    intro bs
    cases bs with
    | nil => right; rfl
    | cons b bs =>
      by_cases h1 : a.toNat < b.toNat
      · left; simp [charListLe, h1]
      · by_cases h2 : b.toNat < a.toNat
        · right; simp [charListLe, h2]
        · rcases ih bs with h | h
          · left; simp [charListLe, h1, h2, h]
          · right; simp [charListLe, h1, h2, h]

lemma charListLe_trans : ∀ as bs cs : List Char, charListLe as bs = true →
    charListLe bs cs = true → charListLe as cs = true := by
  intro as
  induction as with
  | nil => intro bs cs h1 h2; rfl
  | cons a as ih =>
    intro bs cs h1 h2
    cases bs with
    | nil => simp [charListLe] at h1
    | cons b bs =>
      cases cs with
      | nil => simp [charListLe] at h2
      | cons c cs =>
        by_cases hab : a.toNat < b.toNat
        · by_cases hbc : b.toNat < c.toNat
          · have hac : a.toNat < c.toNat := Nat.lt_trans hab hbc
            simp [charListLe, hac]
          · by_cases hcb : c.toNat < b.toNat
            · exfalso; simp [charListLe, hbc, hcb] at h2
            · have hac : a.toNat < c.toNat := by omega
              simp [charListLe, hac]
        · by_cases hba : b.toNat < a.toNat
          · exfalso; simp [charListLe, hab, hba] at h1
          · have h1x : charListLe as bs = true := by
              simpa [charListLe, hab, hba] using h1
            by_cases hbc : b.toNat < c.toNat
            · have hac : a.toNat < c.toNat := by omega
              simp [charListLe, hac]
            · by_cases hcb : c.toNat < b.toNat
              · exfalso; simp [charListLe, hbc, hcb] at h2
              · have h2x : charListLe bs cs = true := by
                  simpa [charListLe, hbc, hcb] using h2
                have hac1 : ¬ a.toNat < c.toNat := by omega
                have hac2 : ¬ c.toNat < a.toNat := by omega
                simp [charListLe, hac1, hac2, ih bs cs h1x h2x]

/-- The comparison relation of the `sort.Slice` call in `Targets`: targets
ordered by cluster name. -/
def targetNameLe (a b : Target) : Prop :=
  charListLe a.Cluster.Name.data b.Cluster.Name.data = true

instance : DecidableRel targetNameLe :=
  fun a b =>
    inferInstanceAs (Decidable (charListLe a.Cluster.Name.data b.Cluster.Name.data = true))

instance : IsTotal Target targetNameLe :=
  ⟨fun a b => charListLe_total a.Cluster.Name.data b.Cluster.Name.data⟩

instance : IsTrans Target targetNameLe :=
  ⟨fun a b c h h2 =>
    charListLe_trans a.Cluster.Name.data b.Cluster.Name.data c.Cluster.Name.data h h2⟩

/-- The `sort.Slice(result, ...)` call: `sort.Slice` guarantees exactly a
permutation of the input ordered by the comparison; it is modelled by
insertion sort. -/
def sortTargets (ts : List Target) : List Target :=
  List.insertionSort targetNameLe ts

/-- The resolution pipeline of `Targets` up to the sort: parse the bundle,
list the clusters, and run the per-cluster loop.  Any failure aborts with a
nil result in `Targets`. -/
def Manager.resolveTargets (m : Manager) (fleetBundle : FleetBundle) :
    Except Err (List Target) := do
  let bnd ← m.bundleNew fleetBundle
  let clusters ← m.clusters fleetBundle.Namespace
  m.TargetsLoop fleetBundle bnd clusters

/-- `(*Manager).Targets`.  Go returns the pair `(result, error)`; note that
the final statement `return result, m.foldInDeployments(fleetBundle, result)`
returns the resolved list even when folding fails, while the earlier error
paths return a nil list.  The pair is modelled directly. -/
def Manager.Targets (m : Manager) (fleetBundle : FleetBundle) :
    List Target × Option Err :=
  match m.resolveTargets fleetBundle with
  | .error e => ([], some e)
  | .ok result =>
    let result := sortTargets result
    match m.foldInDeployments fleetBundle result with
    | .error e => (result, some e)
    | .ok folded => (folded, none)

/-! ## Rollout gate predicates -/

/-- `getRollout`. -/
def getRollout (targets : List Target) : RolloutStrategy :=
  let rollout := match targets with
    | [] => none
    | t :: _ => t.Bundle.Spec.RolloutStrategy
  rollout.getD { MaxUnavailable := none, MaxUnavailablePartitions := none,
                 AutoPartitionSize := none }

/-- `MaxUnavailable(targets)`. -/
def MaxUnavailable (targets : List Target) : Except Err Int :=
  Limit (targets.length : Int) [(getRollout targets).MaxUnavailable]

/-- `MaxUnavailablePartitions(partitions, targets)` (partitions are opaque
here; only their count matters). -/
def MaxUnavailablePartitions (partitionCount : Int) (targets : List Target) :
    Except Err Int :=
  Limit partitionCount
    [(getRollout targets).MaxUnavailablePartitions, some defMaxUnavailablePartitions]

/-- `UpToDate(target)`. -/
def UpToDate (target : Target) : Bool :=
  match target.Deployment with
  | none => false
  | some d =>
    if d.Spec.StagedDeploymentID ≠ target.DeploymentID ∨
       d.Spec.DeploymentID ≠ target.DeploymentID ∨
       d.Status.AppliedDeploymentID ≠ target.DeploymentID then false
    else true

/-- `IsUnavailable(target *fleet.BundleDeployment)` (nil pointer modelled as
`none`). -/
def IsUnavailable : Option BundleDeployment → Bool
  | none => false
  | some target =>
    target.Status.AppliedDeploymentID != target.Spec.DeploymentID ||
      !target.Status.Ready

/-- `Unavailable(targets)`: the counting loop, skipping targets without a
deployment. -/
def Unavailable : List Target → Nat
  | [] => 0
  | target :: rest =>
    if target.Deployment.isNone then Unavailable rest
    else if IsUnavailable target.Deployment then Unavailable rest + 1
    else Unavailable rest

/-- One step of the `IsPartitionUnavailable` loop. -/
def partitionStep (st : PartitionStatus) (target : Target) : PartitionStatus :=
  if !UpToDate target || IsUnavailable target.Deployment then
    { st with Unavailable := st.Unavailable + 1 }
  else st

/-- `IsPartitionUnavailable(status, targets)`: reset the unavailable counter,
count targets that are stale or unavailable, and compare against the
partition budget.  The Go code mutates `status` in place; the updated status
is returned alongside the boolean. -/
def IsPartitionUnavailable (status : PartitionStatus) (targets : List Target) :
    PartitionStatus × Bool :=
  let status := { status with Unavailable := 0 }
  let status := targets.foldl partitionStep status
  (status, decide (status.Unavailable > status.MaxUnavailable))

/-! ## Helper lemmas -/

lemma mem_of_getLast?_eq {l : List Char} {c : Char} (h : l.getLast? = some c) :
    c ∈ l := by
  induction l with
  | nil => simp at h
  | cons a t ih =>
    cases t with
    | nil => simp [List.getLast?] at h; simp [h]
    | cons b t2 =>
      rw [List.getLast?_cons_cons] at h
      exact List.mem_cons_of_mem a (ih h)

lemma percent_mem_stripSign {cs : List Char} (h : cs.getLast? = some '%') :
    Char.ofNat 37 ∈ (stripSign cs).2 := by
  have hpc : Char.ofNat 37 = '%' := by decide
  rw [hpc]
  cases cs with
  | nil => simp at h
  | cons c rest =>
    cases rest with
    | nil =>
      simp [List.getLast?] at h
      subst h
      simp [stripSign]
    | cons c2 rest2 =>
      rw [List.getLast?_cons_cons] at h
      have hm : '%' ∈ c2 :: rest2 := mem_of_getLast?_eq h
      simp only [stripSign]
      split_ifs with h1 h2
      · exact hm
      · exact hm
      · exact List.mem_cons_of_mem c hm

/-- A string ending in a percent sign never parses through `strconv.Atoi`,
because the trailing percent sign is not a digit. -/
lemma goAtoi_of_percentSuffix {sv : String} (h : goHasPercentSuffix sv = true) :
    goAtoi sv = none := by
  have hlast : sv.data.getLast? = some '%' := by
    simpa [goHasPercentSuffix] using h
  have hmem := percent_mem_stripSign hlast
  have hpc : Char.ofNat 37 = '%' := by decide
  rw [hpc] at hmem
  have hnd : atoiDigits (stripSign sv.data).2 = none := by
    unfold atoiDigits
    have hne : ¬ (stripSign sv.data).2.all Char.isDigit = true := by
      intro hall
      have hd := List.all_eq_true.mp hall _ hmem
      simp at hd
    simp only [hne, if_false, Bool.false_eq_true]
    split <;> rfl
  simp only [goAtoi, hnd]

/-- Truncating a rational that is an integer is the identity. -/
lemma ratTruncToInt_intCast (n : Int) : ratTruncToInt (n : ℚ) = n := by
  unfold ratTruncToInt
  rw [Rat.num_intCast, Rat.den_intCast, Nat.cast_one, Int.tdiv_one]

/-- Truncating the exact product of an integer and ten is exact. -/
lemma ratTruncToInt_intCast_mul_ten (n : Int) :
    ratTruncToInt ((n : ℚ) * 10) = n * 10 := by
  have hcast : ((n : ℚ) * 10) = ((n * 10 : Int) : ℚ) := by push_cast; ring
  rw [hcast, ratTruncToInt_intCast]

/-- Evaluation of `limitBudget` on a well-formed percentage budget: the
`IntValue()` fast path yields 0 (the trailing percent sign is not a digit),
the suffix test passes, and the parsed percentage decides the branch. -/
lemma limitBudget_percent (count : Int) (sv : String) (percent : ℚ)
    (hs : goHasPercentSuffix sv = true)
    (hp : goParseFloat (goTrimPercentSuffix sv) = some percent) :
    limitBudget count (IntOrString.s sv) =
      if percent ≤ 0 then Except.ok 1
      else if (ratTruncToInt ((count : ℚ) * percent)).tdiv 100 ≤ 0 then Except.ok 1
      else Except.ok ((ratTruncToInt ((count : ℚ) * percent)).tdiv 100) := by
  have hatoi := goAtoi_of_percentSuffix hs
  simp only [limitBudget, hatoi, Option.getD_none, lt_self_iff_false, if_false, hs,
    Bool.true_eq_false, hp]

/-- Every non-error result of `limitBudget` on a string budget is positive. -/
lemma limitBudget_string_pos (count : Int) (sv : String) (r : Int)
    (h : limitBudget count (IntOrString.s sv) = Except.ok r) : 1 ≤ r := by
  simp only [limitBudget] at h
  split at h
  · cases h; omega
  · split at h
    · cases h
    · split at h
      · cases h
      · split at h
        · cases h; omega
        · split at h
          · cases h; omega
          · cases h; omega

lemma selectedBudget_single (b : IntOrString) : selectedBudget [some b] = b := rfl

lemma selectedBudget_nil : selectedBudget [] = IntOrString.s "10%" := rfl

/-! ## Claim theorems: the rollout limit calculator -/

/-- C2 (counterexample): the claim asserts that `Limit(10, "10")` fails with
an `InvalidBudget` error because the string does not end in a percent sign;
in fact the code first runs the string through `IntValue()`
(`strconv.Atoi`), obtains the positive value 10, and returns it without any
error. -/
theorem limit_string_int_counterexample :
    Limit 10 [some (IntOrString.s "10")] = Except.ok 10 := by rfl

/-- C2 (amended): for nonzero `count`, when the selected budget is a string
whose `IntValue()` fast path does not yield a positive integer, `Limit`
fails when the string does not end in a percent sign, and also when it does
but the numeral before the percent sign does not parse as a floating-point
number.  (A string parsing as a positive integer, such as "10", is instead
accepted as an absolute count.) -/
theorem limit_invalid_string_budget (count : Int) (sv : String)
    (hc : count ≠ 0) (hi : (goAtoi sv).getD 0 ≤ 0) :
    (goHasPercentSuffix sv = false →
      ∃ e, Limit count [some (IntOrString.s sv)] = Except.error e) ∧
    (goHasPercentSuffix sv = true →
      goParseFloat (goTrimPercentSuffix sv) = none →
      ∃ e, Limit count [some (IntOrString.s sv)] = Except.error e) := by
  have hni : ¬ 0 < (goAtoi sv).getD 0 := not_lt.mpr hi
  constructor
  · intro hns
    refine ⟨"invalid maxUnavailable, must be int or percentage (ending with %): " ++ sv, ?_⟩
    rw [Limit, if_neg hc, selectedBudget_single]
    simp only [limitBudget, if_neg hni]
    rw [if_pos hns]
  · intro hs hp
    refine ⟨"failed to parse " ++ sv, ?_⟩
    rw [Limit, if_neg hc, selectedBudget_single]
    simp only [limitBudget, if_neg hni]
    rw [if_neg (by simp [hs] : ¬ goHasPercentSuffix sv = false), hp]

/-- C2 (witness): `Limit(10, "abc%")` fails with the wrapped parse error and
`Limit(10, "abc")` fails with the missing-percent error. -/
theorem limit_invalid_string_budget_witness :
    (∃ e, Limit 10 [some (IntOrString.s "abc%")] = Except.error e) ∧
    (∃ e, Limit 10 [some (IntOrString.s "abc")] = Except.error e) := by
  refine ⟨?_, ?_⟩
  · exact (limit_invalid_string_budget 10 "abc%" (by decide) (by decide)).2
      (by decide) (by decide)
  · exact (limit_invalid_string_budget 10 "abc" (by decide) (by decide)).1 (by decide)

/-- C3: with a positive `count` and an explicit budget, an integer budget is
returned as-is (zero and negative included), and a percentage budget with a
positive parsed value returns the truncated product `int(float64(count) *
percent) / 100` unless that quotient is not positive, in which case 1 is
returned. -/
theorem limit_explicit_budget (count : Int) (v : Int) (sv : String) (percent : ℚ)
    (hc : 0 < count) (hs : goHasPercentSuffix sv = true)
    (hp : goParseFloat (goTrimPercentSuffix sv) = some percent)
    (hpos : 0 < percent) :
    Limit count [some (IntOrString.i v)] = Except.ok v ∧
    Limit count [some (IntOrString.s sv)] =
      Except.ok (if (ratTruncToInt ((count : ℚ) * percent)).tdiv 100 ≤ 0 then 1
                 else (ratTruncToInt ((count : ℚ) * percent)).tdiv 100) := by
  have hc0 : count ≠ 0 := by omega
  constructor
  · rw [Limit, if_neg hc0]
    rfl
  · rw [Limit, if_neg hc0, selectedBudget_single,
      limitBudget_percent count sv percent hs hp, if_neg (not_le.mpr hpos)]
    exact (apply_ite Except.ok _ _ _).symm

/-- C3 (witness): `Limit(10, "50%") = 5`, `Limit(3, "50%") = 1`, and
`Limit(100, 0) = 0`. -/
theorem limit_explicit_budget_witness :
    Limit 10 [some (IntOrString.s "50%")] = Except.ok 5 ∧
    Limit 3 [some (IntOrString.s "50%")] = Except.ok 1 ∧
    Limit 100 [some (IntOrString.i 0)] = Except.ok 0 := by
  refine ⟨?_, ?_, ?_⟩
  · have h := (limit_explicit_budget 10 0 "50%" 50 (by decide) (by decide)
      (by decide) (by decide)).2
    rw [(by norm_num : ((10 : Int) : ℚ) * 50 = ((500 : Int) : ℚ)),
      ratTruncToInt_intCast] at h
    exact h.trans (congrArg Except.ok (by decide))
  · have h := (limit_explicit_budget 3 0 "50%" 50 (by decide) (by decide)
      (by decide) (by decide)).2
    rw [(by norm_num : ((3 : Int) : ℚ) * 50 = ((150 : Int) : ℚ)),
      ratTruncToInt_intCast] at h
    exact h.trans (congrArg Except.ok (by decide))
  · exact (limit_explicit_budget 100 0 "50%" 50 (by decide) (by decide)
      (by decide) (by decide)).1

/-- C4: `Limit(0, anything) = 1`; a percentage budget whose parsed value is
not positive yields 1; and with every budget nil the 10 percent default
applies, so `Limit(count) = max 1 (count * 10 / 100)` for positive `count`. -/
theorem limit_never_blocks (count : Int) (anyVals : List (Option IntOrString))
    (sv : String) (percent : ℚ) (hc : 0 < count)
    (hs : goHasPercentSuffix sv = true)
    (hp : goParseFloat (goTrimPercentSuffix sv) = some percent)
    (hnp : percent ≤ 0) :
    Limit 0 anyVals = Except.ok 1 ∧
    Limit count [some (IntOrString.s sv)] = Except.ok 1 ∧
    Limit count [] = Except.ok (max 1 ((count * 10).tdiv 100)) := by
  have hc0 : count ≠ 0 := by omega
  refine ⟨rfl, ?_, ?_⟩
  · rw [Limit, if_neg hc0, selectedBudget_single,
      limitBudget_percent count sv percent hs hp, if_pos hnp]
  · rw [Limit, if_neg hc0, selectedBudget_nil,
      limitBudget_percent count "10%" 10 (by decide) (by decide),
      if_neg (by norm_num : ¬ (10 : ℚ) ≤ 0), ratTruncToInt_intCast_mul_ten,
      ← apply_ite Except.ok]
    refine congrArg Except.ok ?_
    have hnn : 0 ≤ (count * 10).tdiv 100 :=
      Int.tdiv_nonneg (by omega) (by omega)
    omega

/-- C4 (witness): concrete instances of the three guarantees. -/
theorem limit_never_blocks_witness :
    Limit 0 [some (IntOrString.s "zzz")] = Except.ok 1 ∧
    Limit 25 [some (IntOrString.s "0%")] = Except.ok 1 ∧
    Limit 25 [] = Except.ok 2 := by
  have h := limit_never_blocks 25 [some (IntOrString.s "zzz")] "0%" 0
    (by decide) (by decide) (by decide) (by decide)
  exact ⟨h.1, h.2.1, h.2.2.trans (congrArg Except.ok (by decide))⟩

/-- C10: for positive `count`, a successful `Limit` call whose selected
budget is a string returns at least 1; a result that is zero or negative is
only possible when the selected budget (explicit or fallback) is
integer-typed. -/
theorem limit_result_nonpositive_only_int (count : Int)
    (vals : List (Option IntOrString)) (r : Int)
    (hc : 0 < count) (h : Limit count vals = Except.ok r) :
    (∀ sv, selectedBudget vals = IntOrString.s sv → 1 ≤ r) ∧
    (r ≤ 0 → ∃ v, selectedBudget vals = IntOrString.i v ∧ r = v) := by
  have hc0 : count ≠ 0 := by omega
  rw [Limit, if_neg hc0] at h
  constructor
  · intro sv hsv
    rw [hsv] at h
    exact limitBudget_string_pos count sv r h
  · intro hr
    rcases hsel : selectedBudget vals with v | sv
    · rw [hsel] at h
      simp only [limitBudget, Except.ok.injEq] at h
      exact ⟨v, rfl, h.symm⟩
    · rw [hsel] at h
      have := limitBudget_string_pos count sv r h
      omega

/-! ## Concrete fixtures for witnesses -/

def exCluster : Cluster :=
  { Namespace := "ns", Name := "c1", Labels := [("env", "prod")],
    Spec := { Paused := false }, Status := { Namespace := "depns" } }

def exBundle : FleetBundle :=
  { Namespace := "ns", Name := "b1",
    Spec := { Paused := false, RolloutStrategy := none, Targets := [{ Name := "t0" }] } }

def exDeployment : BundleDeployment :=
  { Namespace := "depns", Name := "b1",
    Spec := { StagedDeploymentID := "id1", DeploymentID := "id1" },
    Status := { AppliedDeploymentID := "id1", Ready := true } }

def exStaleDeployment : BundleDeployment :=
  { Namespace := "depns", Name := "b1",
    Spec := { StagedDeploymentID := "id1", DeploymentID := "id1" },
    Status := { AppliedDeploymentID := "id0", Ready := true } }

def exTarget : Target :=
  { Deployment := some exDeployment, ClusterGroups := [], Cluster := exCluster,
    Bundle := exBundle, Target := { Name := "t0" }, Options := { Raw := "" },
    DeploymentID := "id1" }

def exTargetNoDep : Target := { exTarget with Deployment := none }

/-- A target whose freshly computed identity differs from everything the
recorded deployment carries: not up to date, yet available. -/
def exStaleTarget : Target := { exTarget with DeploymentID := "id2" }

/-- C10 (witness): a string budget yielding a positive result. -/
theorem limit_result_nonpositive_only_int_witness :
    (1 : Int) ≤ 5 ∧ Limit 10 [some (IntOrString.s "50%")] = Except.ok 5 := by
  have hL : Limit 10 [some (IntOrString.s "50%")] = Except.ok 5 := by
    rw [Limit, if_neg (by decide : (10 : Int) ≠ 0), selectedBudget_single,
      limitBudget_percent 10 "50%" 50 (by decide) (by decide),
      if_neg (by norm_num : ¬ (50 : ℚ) ≤ 0),
      (by norm_num : ((10 : Int) : ℚ) * 50 = ((500 : Int) : ℚ)), ratTruncToInt_intCast,
      if_neg (by decide : ¬ (500 : Int).tdiv 100 ≤ 0)]
    exact congrArg Except.ok (by decide)
  exact ⟨(limit_result_nonpositive_only_int 10 _ 5 (by decide) hL).1 "50%" rfl, hL⟩

/-! ## Claim theorems: staleness and availability predicates -/

/-- The `Unavailable` loop counts exactly the targets with a non-nil,
unavailable deployment. -/
lemma unavailable_eq_countP (targets : List Target) :
    Unavailable targets =
      targets.countP (fun t => t.Deployment.isSome && IsUnavailable t.Deployment) := by
  induction targets with
  | nil => rfl
  | cons t rest ih =>
    cases hd : t.Deployment with
    | none => simp [Unavailable, hd, List.countP_cons, ih]
    | some d =>
      by_cases hu : IsUnavailable (some d) = true
      · simp [Unavailable, hd, List.countP_cons, ih, hu]
      · simp [Unavailable, hd, List.countP_cons, ih, hu]

/-- C5: a target with no recorded deployment is never up to date, and one
with a recorded deployment is up to date exactly when the staged, target and
applied identities all equal the freshly computed identity. -/
theorem upToDate_iff (target : Target) :
    (target.Deployment = none → UpToDate target = false) ∧
    (∀ d, target.Deployment = some d →
      (UpToDate target = true ↔
        (d.Spec.StagedDeploymentID = target.DeploymentID ∧
         d.Spec.DeploymentID = target.DeploymentID ∧
         d.Status.AppliedDeploymentID = target.DeploymentID))) := by
  constructor
  · intro h
    simp [UpToDate, h]
  · intro d h
    simp [UpToDate, h]

/-- C5 (witness): concrete up-to-date and deployment-less targets. -/
theorem upToDate_iff_witness :
    UpToDate exTargetNoDep = false ∧ UpToDate exTarget = true := by
  refine ⟨(upToDate_iff exTargetNoDep).1 rfl, ?_⟩
  exact ((upToDate_iff exTarget).2 exDeployment rfl).mpr ⟨rfl, rfl, rfl⟩

/-- C6: a nil deployment is not unavailable; a recorded deployment is
unavailable exactly when its applied identity differs from its target
identity or it is not ready; and `Unavailable` counts the targets with a
non-nil unavailable deployment. -/
theorem isUnavailable_iff (d : BundleDeployment) (targets : List Target) :
    IsUnavailable none = false ∧
    (IsUnavailable (some d) = true ↔
      (d.Status.AppliedDeploymentID ≠ d.Spec.DeploymentID ∨ d.Status.Ready = false)) ∧
    Unavailable targets =
      targets.countP (fun t => t.Deployment.isSome && IsUnavailable t.Deployment) := by
  refine ⟨rfl, ?_, unavailable_eq_countP targets⟩
  simp [IsUnavailable]

/-- C6 (witness): a stale-applied deployment is unavailable; a ready,
in-sync deployment and a missing deployment are not. -/
theorem isUnavailable_iff_witness :
    IsUnavailable (some exStaleDeployment) = true ∧
    Unavailable [exTarget, exTargetNoDep] = 0 := by
  have h := isUnavailable_iff exStaleDeployment [exTarget, exTargetNoDep]
  exact ⟨h.2.1.mpr (Or.inl (by decide)), h.2.2.trans (by decide)⟩

/-- The fold inside `IsPartitionUnavailable` adds the count of stale-or-
unavailable targets to the accumulator and never touches the budget. -/
lemma partitionFold (targets : List Target) (st : PartitionStatus) :
    (targets.foldl partitionStep st).Unavailable =
      st.Unavailable +
        (targets.countP (fun t => !UpToDate t || IsUnavailable t.Deployment) : Int) ∧
    (targets.foldl partitionStep st).MaxUnavailable = st.MaxUnavailable := by
  induction targets generalizing st with
  | nil => simp
  | cons t rest ih =>
    rw [List.foldl_cons, List.countP_cons]
    by_cases hc : (!UpToDate t || IsUnavailable t.Deployment) = true
    · rw [show partitionStep st t = { st with Unavailable := st.Unavailable + 1 } from
        by simp [partitionStep, hc]]
      obtain ⟨h1, h2⟩ := ih { st with Unavailable := st.Unavailable + 1 }
      refine ⟨?_, h2⟩
      rw [h1]
      simp [hc]
      ring
    · rw [show partitionStep st t = st from by simp [partitionStep, hc]]
      obtain ⟨h1, h2⟩ := ih st
      refine ⟨?_, h2⟩
      rw [h1]
      simp [hc]

/-- C7: `IsPartitionUnavailable` overwrites the status's unavailable count
with the number of targets that are stale or unavailable, reports whether
that count exceeds the partition budget, and that count dominates the plain
`Unavailable` count. -/
theorem isPartitionUnavailable_spec (status : PartitionStatus) (targets : List Target) :
    (IsPartitionUnavailable status targets).1.Unavailable =
      (targets.countP (fun t => !UpToDate t || IsUnavailable t.Deployment) : Int) ∧
    ((IsPartitionUnavailable status targets).2 = true ↔
      status.MaxUnavailable <
        (targets.countP (fun t => !UpToDate t || IsUnavailable t.Deployment) : Int)) ∧
    Unavailable targets ≤
      targets.countP (fun t => !UpToDate t || IsUnavailable t.Deployment) := by
  obtain ⟨h1, h2⟩ := partitionFold targets { status with Unavailable := 0 }
  refine ⟨?_, ?_, ?_⟩
  · simp only [IsPartitionUnavailable, h1, zero_add]
  · simp only [IsPartitionUnavailable, h1, h2, zero_add, gt_iff_lt, decide_eq_true_eq]
  · rw [unavailable_eq_countP]
    refine List.countP_mono_left ?_
    intro t _ ht
    have hu : IsUnavailable t.Deployment = true := by
      revert ht
      cases t.Deployment.isSome <;> cases hq : IsUnavailable t.Deployment <;> simp
    simp [hu]

/-- C7 (witness): one stale-but-available target trips a zero-budget
partition even though the plain unavailable count is zero, and the stale
previous value 99 of the status is discarded. -/
theorem isPartitionUnavailable_spec_witness :
    (IsPartitionUnavailable { MaxUnavailable := 0, Unavailable := 99 }
      [exStaleTarget]).1.Unavailable = 1 ∧
    (IsPartitionUnavailable { MaxUnavailable := 0, Unavailable := 99 }
      [exStaleTarget]).2 = true ∧
    Unavailable [exStaleTarget] = 0 := by
  have h := isPartitionUnavailable_spec
    { MaxUnavailable := 0, Unavailable := 99 } [exStaleTarget]
  exact ⟨h.1.trans (by decide), h.2.1.mpr (by decide), by decide⟩

/-! ## Claim theorems: cluster-group matching -/

lemma except_bind_ok {α β : Type} (a : α) (f : α → Except Err β) :
    (Except.ok a >>= f) = f a := rfl

lemma except_bind_error {α β : Type} (e : Err) (f : α → Except Err β) :
    ((Except.error e : Except Err α) >>= f) = Except.error e := rfl

/-- The keep-or-skip predicate realised by the `ClusterGroupsForCluster`
loop: a selector must be present, convert, and match. -/
def cgKeep (clusterLabels : Labels) (cg : ClusterGroup) : Bool :=
  match cg.Spec.Selector with
  | none => false
  | some s =>
    match s.asSelector with
    | .error _ => false
    | .ok sel => sel clusterLabels

lemma cgLoop_eq_filter (clusterLabels : Labels) (cgs : List ClusterGroup) :
    cgLoop clusterLabels cgs = cgs.filter (cgKeep clusterLabels) := by
  induction cgs with
  | nil => rfl
  | cons cg rest ih =>
    rw [List.filter_cons]
    cases hsel : cg.Spec.Selector with
    | none => simp [cgLoop, cgKeep, hsel, ih]
    | some s =>
      cases hconv : s.asSelector with
      | error e => simp [cgLoop, cgKeep, hsel, hconv, ih]
      | ok sel =>
        by_cases hm : sel clusterLabels = true
        · simp [cgLoop, cgKeep, hsel, hconv, hm, ih]
        · simp [cgLoop, cgKeep, hsel, hconv, hm, ih]

/-- C9: when the group listing succeeds, `ClusterGroupsForCluster` succeeds
and returns exactly the groups that carry a selector which converts and
matches the cluster's labels; groups without a selector and groups whose
selector fails to convert are skipped without failing the call. -/
theorem clusterGroupsForCluster_spec (m : Manager) (cluster : Cluster)
    (cgs : List ClusterGroup)
    (h : m.clusterGroups cluster.Namespace = Except.ok cgs) :
    m.ClusterGroupsForCluster cluster =
      Except.ok (cgs.filter (cgKeep cluster.Labels)) := by
  unfold Manager.ClusterGroupsForCluster
  rw [h, except_bind_ok, cgLoop_eq_filter]
  rfl

/-- A converted selector matching any label set containing env=prod. -/
def exProdSelector : LabelSelector :=
  { asSelector := Except.ok (fun ls => decide (("env", "prod") ∈ ls)) }

/-- Fixtures for the matcher: one matching group, one group without a
selector, one group whose selector does not convert. -/
def exMatchingGroup : ClusterGroup :=
  { Namespace := "ns", Name := "g1", Labels := [("team", "a")],
    Spec := { Selector := some exProdSelector } }

def exNoSelGroup : ClusterGroup :=
  { Namespace := "ns", Name := "g2", Labels := [], Spec := { Selector := none } }

def exBadSelGroup : ClusterGroup :=
  { Namespace := "ns", Name := "g3", Labels := [],
    Spec := { Selector := some { asSelector := Except.error "invalid selector" } } }

def exCGManager : Manager :=
  { clusters := fun _ => Except.error "unused",
    clusterGroups := fun _ => Except.ok [exMatchingGroup, exNoSelGroup, exBadSelGroup],
    bundleDeploymentCache := fun _ => Except.error "unused",
    bundleCache := fun _ => Except.error "unused",
    bundleNew := fun _ => Except.error "unused",
    optionsCalculate := fun _ _ => Except.error "unused",
    optionsDeploymentID := fun _ _ => Except.error "unused",
    contentStoreStore := fun _ => Except.error "unused" }

/-- C9 (witness): with a matching group, a selector-less group and a
broken-selector group listed, only the matching group is returned and the
call succeeds. -/
theorem clusterGroupsForCluster_spec_witness :
    exCGManager.ClusterGroupsForCluster exCluster = Except.ok [exMatchingGroup] := by
  have h := clusterGroupsForCluster_spec exCGManager exCluster
    [exMatchingGroup, exNoSelGroup, exBadSelGroup] rfl
  exact h.trans (congrArg Except.ok (by rfl))

/-! ## Claim theorems: target resolution -/

lemma except_pure {α : Type} (a : α) : (pure a : Except Err α) = Except.ok a := rfl

/-- The per-cluster decision realised by the `Targets` loop: a cluster
contributes a target exactly when its group resolution succeeds and the
bundle matcher selects a target definition for it. -/
def matchingCluster (m : Manager) (bnd : Bundle) (c : Cluster) : Bool :=
  match m.ClusterGroupsForCluster c with
  | .error _ => false
  | .ok cgs => (bnd.Match (ClusterGroupsToLabelMap cgs) c.Labels).isSome

/-- A successful `TargetsLoop` run yields exactly one target per matching
cluster, in listing order, each with its deployment still unset. -/
lemma targetsLoop_ok (m : Manager) (fb : FleetBundle) (bnd : Bundle)
    (clusters : List Cluster) (res : List Target)
    (h : m.TargetsLoop fb bnd clusters = Except.ok res) :
    res.map (fun t => t.Cluster) = clusters.filter (matchingCluster m bnd) ∧
    ∀ t ∈ res, t.Deployment = none := by
  induction clusters generalizing res with
  | nil =>
    simp only [Manager.TargetsLoop, Except.ok.injEq] at h
    subst h
    simp
  | cons c rest ih =>
    rw [List.filter_cons]
    cases hcg : m.ClusterGroupsForCluster c with
    | error e =>
      simp only [Manager.TargetsLoop, hcg, except_bind_error] at h
      cases h
    | ok cgs =>
      simp only [Manager.TargetsLoop, hcg, except_bind_ok] at h
      cases hm : bnd.Match (ClusterGroupsToLabelMap cgs) c.Labels with
      | none =>
        simp only [hm] at h
        have hmc : matchingCluster m bnd c = false := by
          simp [matchingCluster, hcg, hm]
        rw [if_neg (by simp [hmc] : ¬ matchingCluster m bnd c = true)]
        exact ih res h
      | some mtch =>
        simp only [hm] at h
        cases hman : mtch.Manifest with
        | error e => rw [hman, except_bind_error] at h; cases h
        | ok manifest =>
          rw [hman, except_bind_ok] at h
          cases hopt : m.optionsCalculate fb.Spec mtch.Target with
          | error e => rw [hopt, except_bind_error] at h; cases h
          | ok opts =>
            rw [hopt, except_bind_ok] at h
            cases hid : m.optionsDeploymentID manifest opts with
            | error e => rw [hid, except_bind_error] at h; cases h
            | ok deploymentID =>
              rw [hid, except_bind_ok] at h
              cases hst : m.contentStoreStore manifest with
              | error e => rw [hst, except_bind_error] at h; cases h
              | ok ref =>
                rw [hst, except_bind_ok] at h
                cases hrec : m.TargetsLoop fb bnd rest with
                | error e => rw [hrec, except_bind_error] at h; cases h
                | ok restTargets =>
                  rw [hrec, except_bind_ok, except_pure] at h
                  obtain rfl := Except.ok.inj h
                  have hmc : matchingCluster m bnd c = true := by
                    simp [matchingCluster, hcg, hm]
                  rw [if_pos hmc]
                  obtain ⟨ih1, ih2⟩ := ih restTargets hrec
                  refine ⟨by simpa using ih1, ?_⟩
                  intro t ht
                  rcases List.mem_cons.mp ht with h1 | h2
                  · rw [h1]
                  · exact ih2 t h2

/-- A successful `resolveTargets` decomposes into its three pipeline
steps. -/
lemma resolveTargets_ok (m : Manager) (b : FleetBundle) (res0 : List Target)
    (h : m.resolveTargets b = Except.ok res0) :
    ∃ bnd clusters, m.bundleNew b = Except.ok bnd ∧
      m.clusters b.Namespace = Except.ok clusters ∧
      m.TargetsLoop b bnd clusters = Except.ok res0 := by
  unfold Manager.resolveTargets at h
  cases hb : m.bundleNew b with
  | error e => rw [hb, except_bind_error] at h; cases h
  | ok bnd =>
    rw [hb, except_bind_ok] at h
    cases hcl : m.clusters b.Namespace with
    | error e => rw [hcl, except_bind_error] at h; cases h
    | ok clusters =>
      rw [hcl, except_bind_ok] at h
      exact ⟨bnd, clusters, rfl, rfl, h⟩

lemma foldInDeployments_ok (m : Manager) (app : FleetBundle)
    (targets : List Target) (bds : List BundleDeployment)
    (h : m.bundleDeploymentCache (DeploymentLabels app) = Except.ok bds) :
    m.foldInDeployments app targets = Except.ok (targets.map (fun t =>
      { t with Deployment := byNamespaceLookup bds t.Cluster.Status.Namespace })) := by
  unfold Manager.foldInDeployments
  rw [h, except_bind_ok, except_pure]

lemma foldInDeployments_error (m : Manager) (app : FleetBundle)
    (targets : List Target) (e : Err)
    (h : m.bundleDeploymentCache (DeploymentLabels app) = Except.error e) :
    m.foldInDeployments app targets = Except.error e := by
  unfold Manager.foldInDeployments
  rw [h, except_bind_error]

/-- A `Targets` call that reports no error went through a successful
resolution and a successful fold, and its result is the sorted resolved list
with the recorded deployments attached. -/
lemma targets_ok_shape (m : Manager) (b : FleetBundle) (res : List Target)
    (h : m.Targets b = (res, none)) :
    ∃ res0 bds, m.resolveTargets b = Except.ok res0 ∧
      m.bundleDeploymentCache (DeploymentLabels b) = Except.ok bds ∧
      res = (sortTargets res0).map (fun t =>
        { t with Deployment := byNamespaceLookup bds t.Cluster.Status.Namespace }) := by
  unfold Manager.Targets at h
  cases hres : m.resolveTargets b with
  | error e =>
    rw [hres] at h
    simp at h
  | ok res0 =>
    simp only [hres] at h
    cases hbd : m.bundleDeploymentCache (DeploymentLabels b) with
    | error e =>
      simp only [foldInDeployments_error m b (sortTargets res0) e hbd] at h
      simp at h
    | ok bds =>
      simp only [foldInDeployments_ok m b (sortTargets res0) bds hbd,
        Prod.mk.injEq] at h
      exact ⟨res0, bds, rfl, rfl, h.1.symm⟩

/-- C8: a successful `Targets` call returns a list sorted ascending by
cluster name that contains, up to the sort's permutation, exactly one target
per listed cluster matching a target definition; non-matching clusters are
skipped rather than failing the call. -/
theorem targets_sorted_unique (m : Manager) (b : FleetBundle) (res : List Target)
    (h : m.Targets b = (res, none)) :
    List.Pairwise targetNameLe res ∧
    ∃ bnd clusters, m.bundleNew b = Except.ok bnd ∧
      m.clusters b.Namespace = Except.ok clusters ∧
      (res.map (fun t => t.Cluster)).Perm
        (clusters.filter (matchingCluster m bnd)) := by
  obtain ⟨res0, bds, hres, hbd, hshape⟩ := targets_ok_shape m b res h
  obtain ⟨bnd, clusters, hb, hcl, hloop⟩ := resolveTargets_ok m b res0 hres
  obtain ⟨hmap, _⟩ := targetsLoop_ok m b bnd clusters res0 hloop
  have hsorted : List.Sorted targetNameLe (sortTargets res0) :=
    List.sorted_insertionSort targetNameLe res0
  have hperm : (sortTargets res0).Perm res0 :=
    List.perm_insertionSort targetNameLe res0
  constructor
  · rw [hshape, List.pairwise_map]
    exact hsorted
  · refine ⟨bnd, clusters, hb, hcl, ?_⟩
    rw [hshape, List.map_map, ← hmap]
    exact hperm.map (fun t => t.Cluster)

/-! Fixtures for the resolution theorems: two clusters that both match, and
a manager whose collaborators all succeed. -/

def exClusterA : Cluster :=
  { Namespace := "ns", Name := "a", Labels := [],
    Spec := { Paused := false }, Status := { Namespace := "nsa" } }

def exClusterB : Cluster :=
  { Namespace := "ns", Name := "b", Labels := [],
    Spec := { Paused := false }, Status := { Namespace := "nsb" } }

def exMatchVal : Match :=
  { Target := { Name := "t0" }, Manifest := Except.ok { Content := "m" } }

def exResolvedBundle : Bundle := { Match := fun _ _ => some exMatchVal }

def wSortManager : Manager :=
  { clusters := fun _ => Except.ok [exClusterB, exClusterA],
    clusterGroups := fun _ => Except.ok [],
    bundleDeploymentCache := fun _ => Except.ok [],
    bundleCache := fun _ => Except.ok [],
    bundleNew := fun _ => Except.ok exResolvedBundle,
    optionsCalculate := fun _ _ => Except.ok { Raw := "" },
    optionsDeploymentID := fun _ _ => Except.ok "id1",
    contentStoreStore := fun _ => Except.ok "ref" }

/-- The same manager except that listing the recorded bundle deployments
fails. -/
def cexManager : Manager :=
  { wSortManager with
    clusters := fun _ => Except.ok [exCluster],
    bundleDeploymentCache := fun _ => Except.error "boom" }

/-- C8 (witness): two matching clusters listed in descending name order come
back sorted ascending. -/
theorem targets_sorted_unique_witness :
    List.Pairwise targetNameLe ((wSortManager.Targets exBundle).1) ∧
    ((wSortManager.Targets exBundle).1.map (fun t => t.Cluster.Name)) = ["a", "b"] := by
  have h := targets_sorted_unique wSortManager exBundle
    ((wSortManager.Targets exBundle).1) (by rfl)
  exact ⟨h.1, by rfl⟩

/-- C1 (counterexample): when only the bundle-deployment listing of the
fold-in step fails, `Targets` returns the error together with the complete
resolved target list, not a nil list as the claim demands for every failing
step. -/
theorem targets_foldin_error_counterexample :
    (cexManager.Targets exBundle).2 = some "boom" ∧
    (cexManager.Targets exBundle).1.length = 1 := ⟨rfl, rfl⟩

/-- C1 (amended): every failing step makes `Targets` report the error, and
the reported error pins down what is returned with it: when the resolution
pipeline before fold-in (cluster listing, selector evaluation, manifest
retrieval, option merging, identity computation, content storing) fails, the
call returns exactly the nil list together with that error; when only the
bundle-deployment listing of the fold-in step fails, the call returns that
error together with exactly the fully resolved, sorted target list
(`sortTargets res0` for the successful resolution `res0`), whose
`Deployment` fields are all still unset. -/
theorem targets_error_aborts (m : Manager) (b : FleetBundle) (e : Err)
    (h : (m.Targets b).2 = some e) :
    (m.resolveTargets b = Except.error e ∧
      m.Targets b = ([], some e)) ∨
    (∃ res0, m.resolveTargets b = Except.ok res0 ∧
      m.bundleDeploymentCache (DeploymentLabels b) = Except.error e ∧
      m.Targets b = (sortTargets res0, some e) ∧
      ∀ t ∈ sortTargets res0, t.Deployment = none) := by
  cases hres : m.resolveTargets b with
  | error e2 =>
    have hT : m.Targets b = ([], some e2) := by
      simp [Manager.Targets, hres]
    obtain rfl : e2 = e := by
      rw [hT] at h
      exact Option.some.inj h
    exact Or.inl ⟨rfl, hT⟩
  | ok res0 =>
    cases hbd : m.bundleDeploymentCache (DeploymentLabels b) with
    | ok bds =>
      exfalso
      unfold Manager.Targets at h
      simp only [hres, foldInDeployments_ok m b (sortTargets res0) bds hbd] at h
      cases h
    | error e2 =>
      have hT : m.Targets b = (sortTargets res0, some e2) := by
        unfold Manager.Targets
        simp only [hres, foldInDeployments_error m b (sortTargets res0) e2 hbd]
      obtain rfl : e2 = e := by
        rw [hT] at h
        exact Option.some.inj h
      refine Or.inr ⟨res0, rfl, rfl, hT, ?_⟩
      intro t ht
      obtain ⟨bnd, clusters, _, _, hloop⟩ := resolveTargets_ok m b res0 hres
      obtain ⟨_, hdep⟩ := targetsLoop_ok m b bnd clusters res0 hloop
      exact hdep t ((List.perm_insertionSort targetNameLe res0).mem_iff.mp ht)

/-- C1 (witness): the amended dichotomy at the concrete fold-in failure. -/
theorem targets_error_aborts_witness :
    (cexManager.resolveTargets exBundle = Except.error "boom" ∧
      cexManager.Targets exBundle = ([], some "boom")) ∨
    (∃ res0, cexManager.resolveTargets exBundle = Except.ok res0 ∧
      cexManager.bundleDeploymentCache (DeploymentLabels exBundle) =
        Except.error "boom" ∧
      cexManager.Targets exBundle = (sortTargets res0, some "boom") ∧
      ∀ t ∈ sortTargets res0, t.Deployment = none) :=
  targets_error_aborts cexManager exBundle "boom" rfl

end Fleet
